import Mathlib

/-!
Verification of the chess position replay engine of `pgn2latex.py`
(class `Board`: SAN move resolution, move execution, FEN serialization).

The embedding mirrors the Python source:
* a board is the `8 x 8` list-of-lists of characters `board[rank][file]`
  (`'.'` marks an empty square, uppercase letters are white pieces,
  lowercase letters black pieces), together with `is_white_turn` and
  `ep_file` (`-1` meaning "no en-passant file");
* coordinates are integers; `Board.get`/`Board.set` guard the index range
  (the Python lists raise on the out-of-range accesses the guards reject,
  so every theorem below stays inside the guarded range);
* SAN tokens are lists of characters; the places where the Python code
  would raise on a malformed token (`IndexError` on a too-short token,
  `ValueError` from `int()` on a non-digit) are modelled by the explicit
  `malformed` outcome, which no theorem below relies on.
-/

namespace PgnReplay

/-- The initial position, row (rank) 0 first, exactly as `INITIAL_BOARD`. -/
def INITIAL_BOARD : List (List Char) :=
  [ ['R', 'N', 'B', 'Q', 'K', 'B', 'N', 'R'],
    ['P', 'P', 'P', 'P', 'P', 'P', 'P', 'P'],
    ['.', '.', '.', '.', '.', '.', '.', '.'],
    ['.', '.', '.', '.', '.', '.', '.', '.'],
    ['.', '.', '.', '.', '.', '.', '.', '.'],
    ['.', '.', '.', '.', '.', '.', '.', '.'],
    ['p', 'p', 'p', 'p', 'p', 'p', 'p', 'p'],
    ['r', 'n', 'b', 'q', 'k', 'b', 'n', 'r'] ]

/-- Board state: 8x8 piece grid plus side to move and en-passant file. -/
structure Board where
  board : List (List Char)
  is_white_turn : Bool
  ep_file : Int
deriving DecidableEq

/-- Constructor `Board.reset` / `Board.__init__`: the starting state. -/
def Board.initial : Board :=
  { board := INITIAL_BOARD, is_white_turn := true, ep_file := -1 }

/-- Accessor `Board.get`: piece at (file 0-7, rank 0-7); rank 0 = rank "1".
Out-of-range reads (which raise in the source) return the junk marker. -/
def Board.get (b : Board) (file rank : Int) : Char :=
  if 0 ≤ file ∧ file < 8 ∧ 0 ≤ rank ∧ rank < 8 then
    (b.board.getD rank.toNat []).getD file.toNat '?'
  else '?'

/-- Accessor `Board.set`: write a piece at (file, rank).  Out-of-range writes
(which raise in the source) leave the board unchanged. -/
def Board.set (b : Board) (file rank : Int) (piece : Char) : Board :=
  if 0 ≤ file ∧ file < 8 ∧ 0 ≤ rank ∧ rank < 8 then
    { b with board :=
        b.board.set rank.toNat ((b.board.getD rank.toNat []).set file.toNat piece) }
  else b

/-- Obstruction test `Board.path_clear`: are all strictly intermediate squares between
(ff, fr) and (tf, tr) empty? -/
def Board.path_clear (b : Board) (ff fr tf tr : Int) : Bool :=
  let df := tf - ff
  let dr := tr - fr
  let steps := max df.natAbs dr.natAbs
  if steps ≤ 1 then true
  else
    let sf : Int := if df ≠ 0 then (if 0 < df then 1 else -1) else 0
    let sr : Int := if dr ≠ 0 then (if 0 < dr then 1 else -1) else 0
    (List.range' 1 (steps - 1)).all fun i =>
      b.get (ff + (i : Int) * sf) (fr + (i : Int) * sr) == '.'

/-- Reachability test `Board.can_reach`: can the piece at (ff, fr) geometrically reach
(tf, tr)?  Pure geometry, mirroring the chained early returns of the
source as boolean disjunctions. -/
def Board.can_reach (b : Board) (ff fr tf tr : Int) (piece : Char) : Bool :=
  let p := piece.toUpper
  let df := tf - ff
  let dr := tr - fr
  if p == 'P' then
    let direction : Int := if piece.isUpper then 1 else -1
    let start_rank : Int := if piece.isUpper then 1 else 6
    let fwd : Bool :=
      df == 0 &&
        ((dr == direction && b.get tf tr == '.') ||
         (dr == 2 * direction && fr == start_rank &&
            b.get tf (fr + direction) == '.' && b.get tf tr == '.'))
    let ep_rank : Int := if piece.isUpper then 5 else 2
    let cap : Bool :=
      df.natAbs == 1 && dr == direction &&
        (b.get tf tr != '.' || (tf == b.ep_file && tr == ep_rank))
    fwd || cap
  else if p == 'N' then
    (df.natAbs == 1 && dr.natAbs == 2) || (df.natAbs == 2 && dr.natAbs == 1)
  else if p == 'K' then
    df.natAbs ≤ 1 && dr.natAbs ≤ 1
  else if p == 'R' then
    (df == 0 || dr == 0) && b.path_clear ff fr tf tr
  else if p == 'B' then
    df.natAbs == dr.natAbs && df != 0 && b.path_clear ff fr tf tr
  else if p == 'Q' then
    if df == 0 || dr == 0 then b.path_clear ff fr tf tr
    else if df.natAbs == dr.natAbs then b.path_clear ff fr tf tr
    else false
  else false

/-- Executor step `Board._do_move`: relocate the piece from (ff, fr) to (tf, tr). -/
def Board.do_move (b : Board) (ff fr tf tr : Int) : Board :=
  let piece := b.get ff fr
  (b.set tf tr piece).set ff fr '.'

/-- The parsed, not yet resolved, content of a non-castling SAN token:
piece letter (already cased for the mover), disambiguation filters,
destination square, promotion letter. -/
structure Parsed where
  piece_char : Char
  dfile : Option Int
  drank : Option Int
  tf : Int
  tr : Int
  promo : Option Char
deriving DecidableEq

/-- Outcome of the parsing phase of `apply_san` (everything before the
64-square scan). -/
inductive ParseResult where
  | castleK
  | castleQ
  | malformed
  | parsed (p : Parsed)
deriving DecidableEq

/-- Is this a check/mate decoration character (stripped by `rstrip`)? -/
def isCheckChar (c : Char) : Bool := c == '+' || c == '#'

/-- Decoration stripping, `san.rstrip` of `+#`: drop trailing check/mate decorations. -/
def stripChecks (san : List Char) : List Char :=
  (san.reverse.dropWhile isCheckChar).reverse

/-- Piece-type and disambiguation parsing of `apply_san` on the reversed
remaining prefix (the destination square is the first two characters of
the reversal), mirroring lines 137-168 of the source (destination
extraction, `x` removal, piece and disambiguation letters). -/
def parseRev (is_white : Bool) (sanRev : List Char) (promo : Option Char) :
    ParseResult :=
  match sanRev with
  | rc :: fc :: restRev =>
    if rc.isDigit then
      let tf : Int := (fc.toNat : Int) - 97
      let tr : Int := ((rc.toNat : Int) - 48) - 1
      let rest := (restRev.reverse).filter (fun c => c != 'x')
      match rest with
      | [] =>
        .parsed ⟨if is_white then 'P' else 'p', none, none, tf, tr, promo⟩
      | c :: cs =>
        if c = 'K' ∨ c = 'Q' ∨ c = 'R' ∨ c = 'B' ∨ c = 'N' then
          let pc := if is_white then c else c.toLower
          match cs with
          | d1 :: d2 :: _ =>
            if d2.isDigit then
              .parsed ⟨pc, some ((d1.toNat : Int) - 97),
                some (((d2.toNat : Int) - 48) - 1), tf, tr, promo⟩
            else .malformed
          | [d1] =>
            if 'a' ≤ d1 ∧ d1 ≤ 'h' then
              .parsed ⟨pc, some ((d1.toNat : Int) - 97), none, tf, tr, promo⟩
            else if d1.isDigit then
              .parsed ⟨pc, none, some (((d1.toNat : Int) - 48) - 1), tf, tr, promo⟩
            else .malformed
          | [] => .parsed ⟨pc, none, none, tf, tr, promo⟩
        else
          .parsed ⟨if is_white then 'P' else 'p',
            some ((c.toNat : Int) - 97), none, tf, tr, promo⟩
    else .malformed
  | _ => .malformed

/-- Runs `parseRev` on the un-reversed prefix (the source indexes the string
from its end: `san[-2]`, `san[-1]`). -/
def parseCore (is_white : Bool) (san : List Char) (promo : Option Char) :
    ParseResult :=
  parseRev is_white san.reverse promo

/-- The full parsing phase of `apply_san`: strip decorations, recognize
castling literals, split off the promotion suffix, and hand the prefix
to `parseCore`. -/
def parse_san (is_white : Bool) (san0 : List Char) : ParseResult :=
  let san := stripChecks san0
  if san = ['O', '-', 'O'] ∨ san = ['0', '-', '0'] then .castleK
  else if san = ['O', '-', 'O', '-', 'O'] ∨ san = ['0', '-', '0', '-', '0'] then
    .castleQ
  else
    let pre := san.takeWhile (fun c => c != '=')
    match san.dropWhile (fun c => c != '=') with
    | [] => parseCore is_white pre none
    | [_] => .malformed
    | _ :: c :: _ => parseCore is_white pre (some c)

/-- All 64 squares as (file, rank) pairs in the scan order of the
resolution loop: rank 0 to 7 outer, file 0 to 7 inner. -/
def scanOrder : List (Int × Int) :=
  (List.range 8).flatMap fun r => (List.range 8).map fun f => ((f : Int), (r : Int))

/-- The candidate filter of the resolution loop: right piece (colored
letter), passes both disambiguation filters, and reaches the target. -/
def matchesCand (b : Board) (piece_char : Char) (dfile drank : Option Int)
    (tf tr : Int) (sq : Int × Int) : Bool :=
  let piece := b.get sq.1 sq.2
  piece == piece_char &&
  (match dfile with | some d => sq.1 == d | none => true) &&
  (match drank with | some d => sq.2 == d | none => true) &&
  b.can_reach sq.1 sq.2 tf tr piece

/-- The 64-square scan: first square in scan order whose piece matches. -/
def findSource (b : Board) (piece_char : Char) (dfile drank : Option Int)
    (tf tr : Int) : Option (Int × Int) :=
  scanOrder.find? (matchesCand b piece_char dfile drank tf tr)

/-- A fully resolved non-castling move. -/
structure Resolved where
  from_file : Int
  from_rank : Int
  target_file : Int
  target_rank : Int
  piece_char : Char
  promo : Option Char
deriving DecidableEq

/-- Outcome of resolving one SAN token against a board. -/
inductive SanStep where
  | castleK
  | castleQ
  | malformed
  | failed
  | move (m : Resolved)
deriving DecidableEq

/-- Resolution phase of `apply_san`: parse, then run the 64-square scan. -/
def resolve_san (b : Board) (san : List Char) : SanStep :=
  match parse_san b.is_white_turn san with
  | .castleK => .castleK
  | .castleQ => .castleQ
  | .malformed => .malformed
  | .parsed p =>
    match findSource b p.piece_char p.dfile p.drank p.tf p.tr with
    | some sq => .move ⟨sq.1, sq.2, p.tf, p.tr, p.piece_char, p.promo⟩
    | none => .failed

/-- Full `Board.apply_san` on a token given as a character list.  Returns the
next board state together with `true` when the token was skipped (the
warning path of the source, or a token on which the source raises). -/
def Board.apply_san (b : Board) (san : List Char) : Board × Bool :=
  match resolve_san b san with
  | .castleK =>
    let rank : Int := if b.is_white_turn then 0 else 7
    let b1 := (b.do_move 4 rank 6 rank).do_move 7 rank 5 rank
    ({ b1 with ep_file := -1, is_white_turn := !b.is_white_turn }, false)
  | .castleQ =>
    let rank : Int := if b.is_white_turn then 0 else 7
    let b1 := (b.do_move 4 rank 2 rank).do_move 0 rank 3 rank
    ({ b1 with ep_file := -1, is_white_turn := !b.is_white_turn }, false)
  | .malformed => (b, true)
  | .failed => ({ b with is_white_turn := !b.is_white_turn }, true)
  | .move m =>
    let is_ep : Bool :=
      m.piece_char.toUpper == 'P' && m.from_file != m.target_file &&
        b.get m.target_file m.target_rank == '.'
    let new_ep : Int :=
      if m.piece_char.toUpper == 'P' &&
          (m.target_rank - m.from_rank).natAbs == 2 then
        m.target_file
      else -1
    let b1 := b.do_move m.from_file m.from_rank m.target_file m.target_rank
    let b2 := if is_ep then b1.set m.target_file m.from_rank '.' else b1
    let b3 :=
      match m.promo with
      | some pc =>
        b2.set m.target_file m.target_rank
          (if b.is_white_turn then pc.toUpper else pc.toLower)
      | none => b2
    ({ b3 with ep_file := new_ep, is_white_turn := !b.is_white_turn }, false)

/-- Wrapper: `Board.apply_san` on a string token. -/
def Board.apply_san_str (b : Board) (san : String) : Board × Bool :=
  b.apply_san san.data

/-- One FEN row of `Board.to_fen`: run-length encode the empty squares
of a rank, file 0 to 7. -/
def fenRow (b : Board) (rank : Int) : String :=
  let step := (List.range 8).foldl
    (fun (acc : String × Nat) f =>
      let piece := b.get (f : Int) rank
      if piece == '.' then (acc.1, acc.2 + 1)
      else ((acc.1 ++ (if 0 < acc.2 then toString acc.2 else "")).push piece, 0))
    ("", 0)
  if 0 < step.2 then step.1 ++ toString step.2 else step.1

/-- Serializer `Board.to_fen`: the FEN piece-placement field, ranks 8 down to 1. -/
def Board.to_fen (b : Board) : String :=
  String.intercalate "/" (((List.range 8).reverse).map fun r => fenRow b (r : Int))

/-- Well-formedness of the piece grid: 8 rows of 8 squares (the shape
`reset` establishes and the Python lists keep throughout). -/
def WF (b : Board) : Prop :=
  b.board.length = 8 ∧ ∀ i : Nat, i < 8 → (b.board.getD i []).length = 8

instance (b : Board) : Decidable (WF b) := by
  unfold WF
  infer_instance

/-- The standard starting position with the kingside opened for white:
f1 and g1 (files 5 and 6 of rank 0) emptied. -/
def openKingside : Board := (Board.initial.set 5 0 '.').set 6 0 '.'

/-- The position after 1.e4: the board on which en-passant state is live
(`ep_file = 4`). -/
def afterE4 : Board := (Board.initial.apply_san_str "e4").1

/-- A board with a white pawn on e4 and a white knight on d5: the
resolver's pawn rule lets the pawn "capture" its own knight. -/
def pawnOwnPieceBoard : Board := (Board.initial.set 4 3 'P').set 3 4 'N'

/-- The position after 1.e4 a6 2.e5 d5: black's d-pawn just
double-pushed past white's e5 pawn, so `ep_file = 3` and `exd6` is an
en-passant capture. -/
def epSetupBoard : Board :=
  ((((Board.initial.apply_san_str "e4").1.apply_san_str "a6").1.apply_san_str
      "e5").1.apply_san_str "d5").1

/-- A board with a white pawn on a7, ready to promote on the empty a8. -/
def promoBoard : Board := (Board.initial.set 0 6 'P').set 0 7 '.'

/-! ## Theorems -/

/-- C6: for a freshly constructed (or reset) board, before any move is
applied, `to_fen` returns exactly the starting-position piece field. -/
theorem initial_to_fen :
    Board.initial.to_fen = "rnbqkbnr/pppppppp/8/8/8/8/PPPPPPPP/RNBQKBNR" := by
  decide

/-- C5: replaying the five SAN tokens e4, e5, Nf3, Nc6, Bb5 from the
starting position yields exactly the Ruy Lopez FEN piece field. -/
theorem ruy_lopez_to_fen :
    (((((Board.initial.apply_san_str "e4").1.apply_san_str "e5").1.apply_san_str
          "Nf3").1.apply_san_str "Nc6").1.apply_san_str "Bb5").1.to_fen =
      "r1bqkbnr/pppp1ppp/2n5/1B2p3/4P3/5N2/PPPP1PPP/RNBQK2R" := by
  decide

/-- C4, counterexample: from the open-kingside position, `O-O` does put
the king on g1 and the rook on f1, but the back rank is NOT otherwise
unchanged outside f1 and g1: e1 (file 4) held the king before and is
empty afterwards.  (h1 changes as well.) -/
theorem castle_kingside_frame_cex :
    ¬ ((openKingside.apply_san_str "O-O").1.get 6 0 = 'K' ∧
       (openKingside.apply_san_str "O-O").1.get 5 0 = 'R' ∧
       ∀ f : Int, 0 ≤ f → f < 8 → f ≠ 5 → f ≠ 6 →
         (openKingside.apply_san_str "O-O").1.get f 0 = openKingside.get f 0) := by
  rintro ⟨-, -, h⟩
  exact absurd (h 4 (by decide) (by decide) (by decide) (by decide)) (by decide)

/-- C4, amended: from the open-kingside position, `O-O` puts the king on
g1 and the rook on f1; on the back rank the four squares e1, f1, g1, h1
change (e1 and h1 become empty) and the files a-d are unchanged. -/
theorem castle_kingside_effect :
    (openKingside.apply_san_str "O-O").1.get 6 0 = 'K' ∧
    (openKingside.apply_san_str "O-O").1.get 5 0 = 'R' ∧
    (openKingside.apply_san_str "O-O").1.get 4 0 = '.' ∧
    (openKingside.apply_san_str "O-O").1.get 7 0 = '.' ∧
    (openKingside.apply_san_str "O-O").1.get 0 0 = openKingside.get 0 0 ∧
    (openKingside.apply_san_str "O-O").1.get 1 0 = openKingside.get 1 0 ∧
    (openKingside.apply_san_str "O-O").1.get 2 0 = openKingside.get 2 0 ∧
    (openKingside.apply_san_str "O-O").1.get 3 0 = openKingside.get 3 0 := by
  decide

/-- C1, counterexample: it is not true that every call of `apply_san`
that does not execute a double-pawn-push clears `en_passant_file`: after
1.e4 (which sets `ep_file = 4`), the unresolvable token `Nd5` fails to
resolve, executes no move at all, and yet leaves `ep_file = 4`. -/
theorem apply_san_ep_clear_cex :
    ¬ (∀ (b : Board) (san : List Char),
        (¬ ∃ m, resolve_san b san = .move m ∧ m.piece_char.toUpper = 'P' ∧
            (m.target_rank - m.from_rank).natAbs = 2) →
        (b.apply_san san).1.ep_file = -1) := by
  intro h
  have h2 := h afterE4 ("Nd5".data) ?side
  · exact absurd h2 (by decide)
  case side =>
    rintro ⟨m, hm, -⟩
    rw [show resolve_san afterE4 ("Nd5".data) = .failed from by decide] at hm
    exact SanStep.noConfusion hm

/-- C1, amended: `en_passant_file` is cleared by every successfully
resolved token that is not a double-pawn-push (castling included), but a
token whose resolution fails leaves `en_passant_file` unchanged (not
necessarily cleared). -/
theorem apply_san_ep_discipline (b : Board) (san : List Char) :
    (resolve_san b san = .failed →
      (b.apply_san san).1.ep_file = b.ep_file) ∧
    ((resolve_san b san = .castleK ∨ resolve_san b san = .castleQ) →
      (b.apply_san san).1.ep_file = -1) ∧
    (∀ m, resolve_san b san = .move m →
      ¬ (m.piece_char.toUpper = 'P' ∧ (m.target_rank - m.from_rank).natAbs = 2) →
      (b.apply_san san).1.ep_file = -1) := by
  refine ⟨fun h => ?_, fun h => ?_, fun m h hnd => ?_⟩
  · simp only [Board.apply_san, h]
  · rcases h with h | h <;> simp only [Board.apply_san, h]
  · have hc : (m.piece_char.toUpper == 'P' &&
        ((m.target_rank - m.from_rank).natAbs == 2)) = false := by
      by_cases h1 : m.piece_char.toUpper = 'P'
      · have h2 : (m.target_rank - m.from_rank).natAbs ≠ 2 := fun hh => hnd ⟨h1, hh⟩
        simp [h2]
      · simp [h1]
    simp only [Board.apply_san, h, hc]
    simp

/-- C1, witness: the amended theorem applied after 1.e4 to the failing
token `Nd5`: the en-passant file is left untouched. -/
theorem apply_san_ep_discipline_witness :
    (afterE4.apply_san ("Nd5".data)).1.ep_file = afterE4.ep_file :=
  (apply_san_ep_discipline afterE4 ("Nd5".data)).1 (by decide)

/-- C3: when the 64-square scan finds no candidate, `apply_san` reports
the failure, leaves the whole piece array (and the en-passant file)
unchanged, and still flips the side to move exactly once. -/
theorem apply_san_failed_skips (b : Board) (san : List Char)
    (h : resolve_san b san = .failed) :
    b.apply_san san = ({ b with is_white_turn := !b.is_white_turn }, true) := by
  simp only [Board.apply_san, h]

/-- C3, witness: from the starting position, `Nd5` resolves to no
candidate; the board is unchanged, only the turn flips, failure is
reported. -/
theorem apply_san_failed_skips_witness :
    Board.initial.apply_san ("Nd5".data) =
      ({ Board.initial with is_white_turn := !Board.initial.is_white_turn }, true) :=
  apply_san_failed_skips _ _ (by decide)

/-- C2, counterexample: the pawn reachability rule does NOT admit a
diagonal step only onto enemy-occupied or en-passant squares: on
`pawnOwnPieceBoard` the white pawn e4 is found to reach d5, a square
occupied by a piece of its own color (and not the en-passant square). -/
theorem pawn_diag_enemy_only_cex :
    ¬ (∀ (b : Board) (ff fr tf tr : Int) (piece : Char),
        piece.toUpper = 'P' →
        piece.isUpper = b.is_white_turn →
        b.get ff fr = piece →
        (tf - ff).natAbs = 1 →
        tr - fr = (if piece.isUpper then 1 else -1) →
        b.can_reach ff fr tf tr piece = true →
        ((b.get tf tr ≠ '.' ∧ (b.get tf tr).isUpper ≠ piece.isUpper) ∨
         (tf = b.ep_file ∧ tr = (if piece.isUpper then 5 else 2)))) := by
  intro h
  exact absurd
    (h pawnOwnPieceBoard 4 3 3 4 'P' (by decide) (by decide) (by decide)
      (by decide) (by decide) (by decide))
    (by decide)

/-- C2, amended: for a pawn and a one-square diagonal forward offset,
reachability holds exactly when the destination is occupied by ANY piece
(of either color) or is the en-passant target square on the capturing
rank. -/
theorem pawn_diag_reach (b : Board) (ff fr tf tr : Int) (piece : Char)
    (hp : piece.toUpper = 'P')
    (hdf : (tf - ff).natAbs = 1)
    (hdr : tr - fr = (if piece.isUpper then 1 else -1)) :
    b.can_reach ff fr tf tr piece = true ↔
      (b.get tf tr ≠ '.' ∨
       (tf = b.ep_file ∧ tr = (if piece.isUpper then 5 else 2))) := by
  have hdf0 : tf - ff ≠ 0 := by
    intro heq
    rw [heq] at hdf
    simp at hdf
  simp only [Board.can_reach, hp, hdr, hdf]
  simp [hdf0]

/-- C2, witness: after 1.e4 d5, the white pawn on e4 reaches d5 (an
occupied square) diagonally, by the amended rule. -/
theorem pawn_diag_reach_witness :
    ((Board.initial.apply_san_str "e4").1.apply_san_str "d5").1.can_reach
      4 3 3 4 'P' = true :=
  (pawn_diag_reach ((Board.initial.apply_san_str "e4").1.apply_san_str "d5").1
      4 3 3 4 'P' (by decide) (by decide) (by decide)).mpr (Or.inl (by decide))

/-- Helper: `List.find?` returns the head of the first satisfying suffix. -/
theorem find?_append_cons {α : Type} (p : α → Bool) (l₁ l₂ : List α) (a : α)
    (h₁ : ∀ x ∈ l₁, p x = false) (h₂ : p a = true) :
    (l₁ ++ a :: l₂).find? p = some a := by
  induction l₁ with
  | nil => simp [List.find?_cons, h₂]
  | cons x xs ih =>
    have hx := h₁ x (by simp)
    simp only [List.cons_append, List.find?_cons, hx]
    exact ih fun y hy => h₁ y (by simp [hy])

/-- C9: the source scan enumerates the 64 squares rank 0 to 7 outer and
file 0 to 7 inner (square (file f, rank r) sits at position `8*r + f`),
and the scan returns the FIRST square in that order whose piece matches
type, disambiguation and reachability — no uniqueness check: whenever
every earlier square fails the filter and `sq` passes it, `sq` is
selected. -/
theorem scan_first_match :
    ((∀ f : Nat, f < 8 → ∀ r : Nat, r < 8 →
        scanOrder[8 * r + f]? = some ((f : Int), (r : Int))) ∧
      scanOrder.length = 64) ∧
    (∀ (b : Board) (pc : Char) (dfo dro : Option Int) (tf tr : Int)
        (l₁ l₂ : List (Int × Int)) (sq : Int × Int),
      scanOrder = l₁ ++ sq :: l₂ →
      (∀ x ∈ l₁, matchesCand b pc dfo dro tf tr x = false) →
      matchesCand b pc dfo dro tf tr sq = true →
      findSource b pc dfo dro tf tr = some sq) := by
  refine ⟨⟨by decide, by decide⟩, ?_⟩
  intro b pc dfo dro tf tr l₁ l₂ sq hdecomp h₁ h₂
  rw [findSource, hdecomp]
  exact find?_append_cons _ _ _ _ h₁ h₂

/-- C9, witness: resolving a white knight move to c3 from the starting
position: the a1 square fails the filter, b1 passes it, so the scan
returns b1 — the first knight in scan order. -/
theorem scan_first_match_witness :
    findSource Board.initial 'N' none none 2 2 = some (1, 0) :=
  scan_first_match.2 Board.initial 'N' none none 2 2
    [(0, 0)] (scanOrder.drop 2) (1, 0) (by decide) (by decide) (by decide)

theorem listGetD_set_self {α : Type} (l : List α) (i : Nat) (a d : α)
    (h : i < l.length) : (l.set i a).getD i d = a := by
  induction l generalizing i with
  | nil => simp at h
  | cons x xs ih =>
    cases i with
    | zero => rfl
    | succ n => exact ih n (by simpa using h)

theorem listGetD_set_ne {α : Type} (l : List α) (i j : Nat) (a d : α)
    (h : i ≠ j) : (l.set i a).getD j d = l.getD j d := by
  induction l generalizing i j with
  | nil => rfl
  | cons x xs ih =>
    cases i with
    | zero =>
      cases j with
      | zero => exact absurd rfl h
      | succ k => rfl
    | succ n =>
      cases j with
      | zero => rfl
      | succ k => exact ih n k (by omega)

theorem WF_set (b : Board) (f r : Int) (c : Char) (hW : WF b) :
    WF (b.set f r c) := by
  unfold Board.set
  by_cases hin : 0 ≤ f ∧ f < 8 ∧ 0 ≤ r ∧ r < 8
  · rw [if_pos hin]
    refine ⟨by simpa using hW.1, fun i hi => ?_⟩
    by_cases hir : i = r.toNat
    · rw [hir, listGetD_set_self _ _ _ _ (by rw [hW.1]; omega), List.length_set]
      exact hW.2 r.toNat (by omega)
    · rw [listGetD_set_ne _ _ _ _ _ (by omega)]
      exact hW.2 i hi
  · rw [if_neg hin]
    exact hW

theorem get_set_self (b : Board) (f r : Int) (c : Char) (hW : WF b)
    (hf0 : 0 ≤ f) (hf8 : f < 8) (hr0 : 0 ≤ r) (hr8 : r < 8) :
    (b.set f r c).get f r = c := by
  unfold Board.set Board.get
  rw [if_pos ⟨hf0, hf8, hr0, hr8⟩, if_pos ⟨hf0, hf8, hr0, hr8⟩]
  rw [listGetD_set_self _ _ _ _ (by rw [hW.1]; omega)]
  rw [listGetD_set_self _ _ _ _ (by rw [hW.2 r.toNat (by omega)]; omega)]

theorem get_set_ne (b : Board) (f r f' r' : Int) (c : Char)
    (hne : f' ≠ f ∨ r' ≠ r) :
    (b.set f r c).get f' r' = b.get f' r' := by
  unfold Board.set Board.get
  by_cases h1 : 0 ≤ f ∧ f < 8 ∧ 0 ≤ r ∧ r < 8
  · rw [if_pos h1]
    by_cases h2 : 0 ≤ f' ∧ f' < 8 ∧ 0 ≤ r' ∧ r' < 8
    · rw [if_pos h2, if_pos h2]
      by_cases hrr : r'.toNat = r.toNat
      · have hfne : f' ≠ f := by
          rcases hne with hne | hne
          · exact hne
          · exact absurd (by omega : r' = r) hne
        rw [hrr]
        by_cases hlen : r.toNat < b.board.length
        · rw [listGetD_set_self _ _ _ _ hlen]
          rw [listGetD_set_ne _ _ _ _ _ (by omega)]
        · rw [List.set_eq_of_length_le (by omega)]
      · rw [listGetD_set_ne _ _ _ _ _ (by omega)]
    · rw [if_neg h2, if_neg h2]
  · rw [if_neg h1]

/-- A square whose `get` is a real piece character (not the out-of-range
marker) lies inside the 8x8 range. -/
theorem get_in_range (b : Board) (f r : Int) (h : b.get f r ≠ '?') :
    0 ≤ f ∧ f < 8 ∧ 0 ≤ r ∧ r < 8 := by
  unfold Board.get at h
  by_cases hin : 0 ≤ f ∧ f < 8 ∧ 0 ≤ r ∧ r < 8
  · exact hin
  · rw [if_neg hin] at h
    exact absurd rfl h

/-- Every square produced by the scan lies inside the 8x8 range. -/
theorem scanOrder_mem_range (ff fr : Int) (h : (ff, fr) ∈ scanOrder) :
    0 ≤ ff ∧ ff < 8 ∧ 0 ≤ fr ∧ fr < 8 := by
  have hall : ∀ x ∈ scanOrder, 0 ≤ x.1 ∧ x.1 < 8 ∧ 0 ≤ x.2 ∧ x.2 < 8 := by decide
  exact hall (ff, fr) h

/-- Unfolding a successful candidate filter: the square holds exactly
the scanned-for piece letter and that piece reaches the target. -/
theorem matchesCand_true (b : Board) (pc : Char) (dfo dro : Option Int)
    (tf tr ff fr : Int)
    (h : matchesCand b pc dfo dro tf tr (ff, fr) = true) :
    b.get ff fr = pc ∧ b.can_reach ff fr tf tr (b.get ff fr) = true := by
  unfold matchesCand at h
  cases dfo <;> cases dro <;>
    simp only [Bool.and_eq_true, beq_iff_eq] at h <;>
    exact ⟨h.1.1.1, h.2⟩

theorem WF_do_move (b : Board) (ff fr tf tr : Int) (hW : WF b) :
    WF (b.do_move ff fr tf tr) := by
  unfold Board.do_move
  exact WF_set _ _ _ _ (WF_set _ _ _ _ hW)

/-- Updating the turn and en-passant flags does not change any square. -/
@[simp] theorem get_update_flags (bb : Board) (w : Bool) (e : Int) (f r : Int) :
    ({ bb with is_white_turn := w, ep_file := e } : Board).get f r = bb.get f r :=
  rfl

/-- Inversion of a successful resolution: it came from a parsed token
and a successful scan. -/
theorem resolve_move_inv (b : Board) (san : List Char) (m : Resolved)
    (h : resolve_san b san = .move m) :
    ∃ p : Parsed, parse_san b.is_white_turn san = .parsed p ∧
      p.piece_char = m.piece_char ∧ p.promo = m.promo ∧
      p.tf = m.target_file ∧ p.tr = m.target_rank ∧
      findSource b p.piece_char p.dfile p.drank p.tf p.tr =
        some (m.from_file, m.from_rank) := by
  unfold resolve_san at h
  split at h
  · simp at h
  · simp at h
  · simp at h
  · rename_i p hp2
    split at h
    · rename_i sq hf
      simp only [SanStep.move.injEq] at h
      subst h
      exact ⟨p, hp2, rfl, rfl, rfl, rfl, by rw [hf]⟩
    · simp at h

/-- For a pawn whose source and destination files differ, reachability
forces the capture geometry: one file over, one rank forward. -/
theorem pawn_reach_capture (b : Board) (ff fr tf tr : Int) (piece : Char)
    (hp : piece.toUpper = 'P') (hne : tf ≠ ff)
    (h : b.can_reach ff fr tf tr piece = true) :
    (tf - ff).natAbs = 1 ∧ tr - fr = (if piece.isUpper then 1 else -1) := by
  have hdf0 : (tf - ff == 0) = false := by
    simp only [beq_eq_false_iff_ne, ne_eq]
    omega
  simp only [Board.can_reach, hp, hdf0] at h
  simp only [beq_self_eq_true, if_true, Bool.false_and, Bool.false_or,
    Bool.and_eq_true, beq_iff_eq] at h
  exact ⟨h.1.1, h.1.2⟩

/-- Common inversion bundle for a resolved pawn move with distinct
source and destination files: source contents, in-range bounds, and the
capture geometry. -/
theorem resolved_pawn_facts (b : Board) (san : List Char) (m : Resolved)
    (hres : resolve_san b san = .move m)
    (hpawn : m.piece_char.toUpper = 'P')
    (hdiff : m.from_file ≠ m.target_file)
    (hempty : b.get m.target_file m.target_rank = '.') :
    b.get m.from_file m.from_rank = m.piece_char ∧
    (0 ≤ m.from_file ∧ m.from_file < 8 ∧ 0 ≤ m.from_rank ∧ m.from_rank < 8) ∧
    (0 ≤ m.target_file ∧ m.target_file < 8 ∧ 0 ≤ m.target_rank ∧ m.target_rank < 8) ∧
    m.target_rank ≠ m.from_rank := by
  obtain ⟨p, hp, hpc, hpr, htf, htr, hfind⟩ := resolve_move_inv b san m hres
  have hmem := List.mem_of_find?_eq_some hfind
  have hpred := List.find?_some hfind
  have hrange := scanOrder_mem_range _ _ hmem
  obtain ⟨hget, hreach⟩ := matchesCand_true _ _ _ _ _ _ _ _ hpred
  rw [hpc] at hget
  rw [htf, htr, hget] at hreach
  have htrange := get_in_range b m.target_file m.target_rank (by rw [hempty]; decide)
  have hcap := pawn_reach_capture b m.from_file m.from_rank m.target_file
    m.target_rank m.piece_char hpawn (Ne.symm hdiff) hreach
  refine ⟨hget, hrange, htrange, ?_⟩
  rcases hcap with ⟨-, h2⟩
  by_cases hu : m.piece_char.isUpper <;> simp [hu] at h2 <;> omega

/-- C7, amended: when `apply_san` executes an en-passant capture (a
resolved pawn move with differing source and destination files onto an
empty square), the square on the source rank and destination file (the
jumped-over pawn) is cleared; the destination square holds the capturing
pawn provided the token carried no promotion suffix (a promotion suffix
makes it hold the promotion piece instead). -/
theorem ep_capture_effect (b : Board) (san : List Char) (m : Resolved)
    (hW : WF b)
    (hres : resolve_san b san = .move m)
    (hpawn : m.piece_char.toUpper = 'P')
    (hdiff : m.from_file ≠ m.target_file)
    (hempty : b.get m.target_file m.target_rank = '.') :
    (b.apply_san san).1.get m.target_file m.from_rank = '.' ∧
    (m.promo = none →
      (b.apply_san san).1.get m.target_file m.target_rank = m.piece_char) := by
  obtain ⟨hget, hrange, htrange, hrne⟩ :=
    resolved_pawn_facts b san m hres hpawn hdiff hempty
  have hep : (m.piece_char.toUpper == 'P' && m.from_file != m.target_file &&
      (b.get m.target_file m.target_rank == '.')) = true := by
    simp [hpawn, hdiff, hempty]
  have hW1 : WF (b.do_move m.from_file m.from_rank m.target_file m.target_rank) :=
    WF_do_move _ _ _ _ _ hW
  have hW2 : WF ((b.do_move m.from_file m.from_rank m.target_file
      m.target_rank).set m.target_file m.from_rank '.') :=
    WF_set _ _ _ _ hW1
  simp only [Board.apply_san, hres, hep, if_true, get_update_flags]
  constructor
  · cases hpm : m.promo with
    | none =>
      exact get_set_self _ _ _ _ hW1 htrange.1 htrange.2.1 hrange.2.2.1 hrange.2.2.2
    | some pc =>
      rw [get_set_ne _ _ _ _ _ _ (Or.inr (Ne.symm hrne))]
      exact get_set_self _ _ _ _ hW1 htrange.1 htrange.2.1 hrange.2.2.1 hrange.2.2.2
  · intro hpm
    rw [hpm]
    rw [get_set_ne _ _ _ _ _ _ (Or.inr hrne)]
    unfold Board.do_move
    rw [get_set_ne _ _ _ _ _ _ (Or.inl (Ne.symm hdiff))]
    rw [get_set_self _ _ _ _ hW htrange.1 htrange.2.1 htrange.2.2.1 htrange.2.2.2]
    exact hget

/-- C7, counterexample: an en-passant capture does not always leave the
capturing PAWN on the destination square: the token `exd6=Q` (accepted
by the source's move pattern) resolves to an en-passant capture and the
promotion suffix then overwrites the destination with a queen. -/
theorem ep_capture_pawn_dest_cex :
    ¬ (∀ (b : Board) (san : List Char) (m : Resolved),
        WF b →
        resolve_san b san = .move m →
        m.piece_char.toUpper = 'P' →
        m.from_file ≠ m.target_file →
        b.get m.target_file m.target_rank = '.' →
        ((b.apply_san san).1.get m.target_file m.from_rank = '.' ∧
         (b.apply_san san).1.get m.target_file m.target_rank = m.piece_char)) := by
  intro h
  have h2 := h epSetupBoard ("exd6=Q".data) ⟨4, 4, 3, 5, 'P', some 'Q'⟩
    (by decide) (by decide) (by decide) (by decide) (by decide)
  exact absurd h2.2 (by decide)

/-- C7, witness: 1.e4 a6 2.e5 d5 3.exd6: the jumped-over pawn square d5
becomes empty and the capturing white pawn stands on d6. -/
theorem ep_capture_effect_witness :
    (epSetupBoard.apply_san ("exd6".data)).1.get 3 4 = '.' ∧
    (epSetupBoard.apply_san ("exd6".data)).1.get 3 5 = 'P' := by
  have h := ep_capture_effect epSetupBoard ("exd6".data) ⟨4, 4, 3, 5, 'P', none⟩
    (by decide) (by decide) (by decide) (by decide) (by decide)
  exact ⟨h.1, h.2 rfl⟩

/-- C8: a successfully resolved pawn move carrying the promotion suffix
`=Q` leaves a queen of the moving side's color on the destination
square, never a pawn.  (The destination bounds hold for every SAN
destination square `a1`-`h8`.) -/
theorem promotion_queen (b : Board) (san : List Char) (m : Resolved)
    (hW : WF b)
    (hres : resolve_san b san = .move m)
    (hpawn : m.piece_char.toUpper = 'P')
    (hpromo : m.promo = some 'Q')
    (hfr : 0 ≤ m.target_file ∧ m.target_file < 8)
    (hrr : 0 ≤ m.target_rank ∧ m.target_rank < 8) :
    (b.apply_san san).1.get m.target_file m.target_rank =
      (if b.is_white_turn then 'Q' else 'q') ∧
    (b.apply_san san).1.get m.target_file m.target_rank ≠ 'P' ∧
    (b.apply_san san).1.get m.target_file m.target_rank ≠ 'p' := by
  have hW1 : WF (b.do_move m.from_file m.from_rank m.target_file m.target_rank) :=
    WF_do_move _ _ _ _ _ hW
  simp only [Board.apply_san, hres, hpromo, get_update_flags]
  split
  · rw [get_set_self _ _ _ _ (WF_set _ _ _ _ hW1) hfr.1 hfr.2 hrr.1 hrr.2]
    cases hwt : b.is_white_turn <;> exact ⟨by decide, by decide, by decide⟩
  · rw [get_set_self _ _ _ _ hW1 hfr.1 hfr.2 hrr.1 hrr.2]
    cases hwt : b.is_white_turn <;> exact ⟨by decide, by decide, by decide⟩

/-- C8, witness: `a8=Q` from `promoBoard` puts a white queen on a8. -/
theorem promotion_queen_witness :
    (promoBoard.apply_san ("a8=Q".data)).1.get 0 7 = 'Q' := by
  have h := promotion_queen promoBoard ("a8=Q".data) ⟨0, 6, 0, 7, 'P', some 'Q'⟩
    (by decide) (by decide) (by decide) (by decide) (by decide) (by decide)
  exact h.1.trans (by decide)

theorem takeWhile_append_all {α : Type} (p : α → Bool) (xs ys : List α)
    (h : ∀ a ∈ xs, p a = true) :
    (xs ++ ys).takeWhile p = xs ++ ys.takeWhile p := by
  induction xs with
  | nil => simp
  | cons a as ih =>
    have ha := h a (by simp)
    simp [List.takeWhile_cons, ha, ih fun b hb => h b (by simp [hb])]

theorem dropWhile_append_all {α : Type} (p : α → Bool) (xs ys : List α)
    (h : ∀ a ∈ xs, p a = true) :
    (xs ++ ys).dropWhile p = ys.dropWhile p := by
  induction xs with
  | nil => simp
  | cons a as ih =>
    have ha := h a (by simp)
    simp [List.dropWhile_cons, ha, ih fun b hb => h b (by simp [hb])]

theorem dropWhile_append_stop {α : Type} (p : α → Bool) (xs ys : List α)
    (a : α) (h : p a = false) :
    (xs ++ a :: ys).dropWhile p = xs.dropWhile p ++ a :: ys := by
  induction xs with
  | nil => simp [List.dropWhile_cons, h]
  | cons x xs ih =>
    cases hx : p x <;> simp [List.dropWhile_cons, hx, ih]

/-- Stripping via `rstrip` passes unchanged over any character that is not a
check decoration: only the suffix after the last such character can be
stripped. -/
theorem stripChecks_append (l s : List Char) (r : Char)
    (hr : isCheckChar r = false) :
    stripChecks (l ++ r :: s) = l ++ r :: stripChecks s := by
  unfold stripChecks
  have hrev : (l ++ r :: s).reverse = s.reverse ++ r :: l.reverse := by simp
  rw [hrev, dropWhile_append_stop _ _ _ _ hr]
  simp

/-- Parsing via `parseRev` depends on the pre-destination characters only through
their `x`-filtered form. -/
theorem parseRev_congr (w : Bool) (rc fc : Char) (A B : List Char)
    (promo : Option Char)
    (h : A.reverse.filter (fun c => c != 'x') =
      B.reverse.filter (fun c => c != 'x')) :
    parseRev w (rc :: fc :: A) promo = parseRev w (rc :: fc :: B) promo := by
  simp only [parseRev]
  rw [h]

/-- Dropping one `x` from the pre-destination prefix does not change the
parse (the source deletes every `x` there before reading the piece
letter and the disambiguation). -/
theorem parseCore_x (w : Bool) (pre : List Char) (f r : Char)
    (promo : Option Char) :
    parseCore w (pre ++ 'x' :: f :: r :: []) promo =
      parseCore w (pre ++ f :: r :: []) promo := by
  unfold parseCore
  rw [show (pre ++ 'x' :: f :: r :: []).reverse = r :: f :: ('x' :: pre.reverse)
      from by simp,
    show (pre ++ f :: r :: []).reverse = r :: f :: pre.reverse from by simp]
  exact parseRev_congr w r f _ _ promo (by simp)

/-- C10 core: under the standard SAN token shape (no `=` before the
destination, destination's rank character not a check decoration,
post-destination suffix empty or a promotion suffix, token not a
castling literal), inserting the capture indicator `x` right before the
destination square does not change the parse. -/
theorem parse_san_x (w : Bool) (pre : List Char) (f r : Char) (suf : List Char)
    (hpre : ∀ a ∈ pre, a ≠ '=')
    (hf : f ≠ '=') (hr : r ≠ '=')
    (hrc : isCheckChar r = false)
    (hsuf : stripChecks suf = [] ∨ ∃ t, stripChecks suf = '=' :: t)
    (hnc : ∀ L ∈ ([['O', '-', 'O'], ['0', '-', '0'], ['O', '-', 'O', '-', 'O'],
        ['0', '-', '0', '-', '0']] : List (List Char)),
      pre ++ f :: r :: stripChecks suf ≠ L) :
    parse_san w (pre ++ 'x' :: f :: r :: suf) =
      parse_san w (pre ++ f :: r :: suf) := by
  have h1 : stripChecks (pre ++ 'x' :: f :: r :: suf) =
      pre ++ 'x' :: f :: r :: stripChecks suf := by
    rw [show pre ++ 'x' :: f :: r :: suf = (pre ++ ['x', f]) ++ r :: suf from by simp,
      stripChecks_append _ _ _ hrc]
    simp
  have h0 : stripChecks (pre ++ f :: r :: suf) =
      pre ++ f :: r :: stripChecks suf := by
    rw [show pre ++ f :: r :: suf = (pre ++ [f]) ++ r :: suf from by simp,
      stripChecks_append _ _ _ hrc]
    simp
  have hmemx : ('x' : Char) ∈ pre ++ 'x' :: f :: r :: stripChecks suf := by simp
  have hxlit : ∀ L ∈ ([['O', '-', 'O'], ['0', '-', '0'], ['O', '-', 'O', '-', 'O'],
      ['0', '-', '0', '-', '0']] : List (List Char)),
      pre ++ 'x' :: f :: r :: stripChecks suf ≠ L := by
    intro L hL he
    have hxL : ('x' : Char) ∈ L := he ▸ hmemx
    fin_cases hL <;> revert hxL <;> decide
  have hc1 : ¬(pre ++ 'x' :: f :: r :: stripChecks suf = ['O', '-', 'O'] ∨
      pre ++ 'x' :: f :: r :: stripChecks suf = ['0', '-', '0']) := by
    rintro (h | h)
    · exact hxlit _ (by simp) h
    · exact hxlit _ (by simp) h
  have hc2 : ¬(pre ++ 'x' :: f :: r :: stripChecks suf = ['O', '-', 'O', '-', 'O'] ∨
      pre ++ 'x' :: f :: r :: stripChecks suf = ['0', '-', '0', '-', '0']) := by
    rintro (h | h)
    · exact hxlit _ (by simp) h
    · exact hxlit _ (by simp) h
  have hd1 : ¬(pre ++ f :: r :: stripChecks suf = ['O', '-', 'O'] ∨
      pre ++ f :: r :: stripChecks suf = ['0', '-', '0']) := by
    rintro (h | h)
    · exact hnc _ (by simp) h
    · exact hnc _ (by simp) h
  have hd2 : ¬(pre ++ f :: r :: stripChecks suf = ['O', '-', 'O', '-', 'O'] ∨
      pre ++ f :: r :: stripChecks suf = ['0', '-', '0', '-', '0']) := by
    rintro (h | h)
    · exact hnc _ (by simp) h
    · exact hnc _ (by simp) h
  have hall1 : ∀ a ∈ pre ++ ['x', f, r], (fun c => c != '=') a = true := by
    intro a ha
    simp only [List.mem_append, List.mem_cons, List.not_mem_nil, or_false] at ha
    simp only [bne_iff_ne, ne_eq]
    rcases ha with ha | ha | ha | ha
    · exact hpre a ha
    · rw [ha]; decide
    · rw [ha]; exact hf
    · rw [ha]; exact hr
  have hall0 : ∀ a ∈ pre ++ [f, r], (fun c => c != '=') a = true := by
    intro a ha
    simp only [List.mem_append, List.mem_cons, List.not_mem_nil, or_false] at ha
    simp only [bne_iff_ne, ne_eq]
    rcases ha with ha | ha | ha
    · exact hpre a ha
    · rw [ha]; exact hf
    · rw [ha]; exact hr
  unfold parse_san
  rw [h1, h0, if_neg hc1, if_neg hc2, if_neg hd1, if_neg hd2]
  rw [show pre ++ 'x' :: f :: r :: stripChecks suf =
      (pre ++ ['x', f, r]) ++ stripChecks suf from by simp,
    show pre ++ f :: r :: stripChecks suf =
      (pre ++ [f, r]) ++ stripChecks suf from by simp]
  rw [takeWhile_append_all _ _ _ hall1, dropWhile_append_all _ _ _ hall1,
    takeWhile_append_all _ _ _ hall0, dropWhile_append_all _ _ _ hall0]
  rcases hsuf with hs | ⟨t, hs⟩
  · rw [hs]
    simp only [List.takeWhile_nil, List.dropWhile_nil, List.append_nil]
    exact parseCore_x w pre f r none
  · rw [hs]
    have hne : (('=' : Char) != '=') = false := by decide
    simp only [List.takeWhile_cons, List.dropWhile_cons, hne, Bool.false_eq_true,
      if_false, List.append_nil]
    cases t with
    | nil => rfl
    | cons c t2 => exact parseCore_x w pre f r (some c)

/-- C10: for a non-castling SAN token, `apply_san` produces the same
result whether or not the capture indicator `x` stands before the
destination square: the `x` is deleted before piece-type and
disambiguation parsing, so both spellings resolve and execute
identically. -/
theorem apply_san_x_irrelevant (b : Board) (pre : List Char) (f r : Char)
    (suf : List Char)
    (hpre : ∀ a ∈ pre, a ≠ '=')
    (hf : f ≠ '=') (hr : r ≠ '=')
    (hrc : isCheckChar r = false)
    (hsuf : stripChecks suf = [] ∨ ∃ t, stripChecks suf = '=' :: t)
    (hnc : ∀ L ∈ ([['O', '-', 'O'], ['0', '-', '0'], ['O', '-', 'O', '-', 'O'],
        ['0', '-', '0', '-', '0']] : List (List Char)),
      pre ++ f :: r :: stripChecks suf ≠ L) :
    b.apply_san (pre ++ 'x' :: f :: r :: suf) =
      b.apply_san (pre ++ f :: r :: suf) := by
  have hres : resolve_san b (pre ++ 'x' :: f :: r :: suf) =
      resolve_san b (pre ++ f :: r :: suf) := by
    unfold resolve_san
    rw [parse_san_x b.is_white_turn pre f r suf hpre hf hr hrc hsuf hnc]
  unfold Board.apply_san
  rw [hres]

/-- C10, witness: after 1.e4 d5, the capture spellings `exd5` and `ed5`
of the same pawn capture produce identical boards. -/
theorem apply_san_x_irrelevant_witness :
    ((Board.initial.apply_san_str "e4").1.apply_san_str "d5").1.apply_san
        ("exd5".data) =
      ((Board.initial.apply_san_str "e4").1.apply_san_str "d5").1.apply_san
        ("ed5".data) :=
  apply_san_x_irrelevant ((Board.initial.apply_san_str "e4").1.apply_san_str "d5").1
    ['e'] 'd' '5' [] (by decide) (by decide) (by decide) (by decide)
    (Or.inl (by decide)) (by decide)

end PgnReplay
